import Mathlib

/-!
Shallow embedding of the `merge_config_files` Rust crate (`src/lib.rs`).

The crate parses TOML/JSON config files into `serde_json::Value` trees and
folds them together with `merge_objects`.  We model `serde_json::Value` as an
inductive `Value`, and `serde_json::Map<String, Value>` (a `BTreeMap`, i.e. a
key-sorted association structure) as a `List (String × Value)` together with
the `BTreeMap` operations `remove`, `insert` and `get` written out on sorted
association lists.  Well-formedness (`keys strictly sorted`) is the `BTreeMap`
representation invariant.
-/

set_option autoImplicit false

namespace MergeConfig

/-- Model of `serde_json::Value`: Null, Bool, Number, String, Array, Object.
Numbers are modelled as integers; none of the merge logic inspects numbers. -/
inductive Value where
  | null : Value
  | bool : Bool → Value
  | num : Int → Value
  | str : String → Value
  | arr : List Value → Value
  | obj : List (String × Value) → Value
deriving Repr

/-- The keys of an association-list object, in order. -/
def keys (m : List (String × Value)) : List String :=
  m.map Prod.fst

/-- Model of `BTreeMap::remove(&key)`: returns the value stored at `key` (if
any) together with the map with that entry removed.  On a well-formed (sorted,
duplicate-free) list this is exactly the `BTreeMap` behaviour. -/
def map_remove : List (String × Value) → String → Option Value × List (String × Value)
  | [], _ => (none, [])
  | (k, v) :: rest, key =>
    if key = k then (some v, rest)
    else
      let r := map_remove rest key
      (r.1, (k, v) :: r.2)

/-- Model of `BTreeMap::insert(key, v)`: sorted insertion, replacing an
existing entry with the same key. -/
def map_insert : List (String × Value) → String → Value → List (String × Value)
  | [], key, v => [(key, v)]
  | (k, w) :: rest, key, v =>
    if key < k then (key, v) :: (k, w) :: rest
    else if key = k then (key, v) :: rest
    else (k, w) :: map_insert rest key v

/-- Model of `BTreeMap::get(&key)` (first entry with the key). -/
def map_get : List (String × Value) → String → Option Value
  | [], _ => none
  | (k, v) :: rest, key => if key = k then some v else map_get rest key

/-- The two merge errors of `enum Error` that `merge_objects` can produce:
`ObjectFieldTypeMismatch { key, value }` and `ArrayFieldTypeMismatch { key, value }`. -/
inductive MergeError where
  | objectFieldTypeMismatch : String → Value → MergeError
  | arrayFieldTypeMismatch : String → Value → MergeError
deriving Repr

/-- Embedding of `merge_objects(target, source, merge_nested, extend_array)`
from `src/lib.rs` lines 213-274.  The Rust `for (key, value) in source` loop
becomes recursion on the `source` list; `target.remove(&key)` and
`target.insert(key, v)` become `map_remove` / `map_insert`. -/
def merge_objects (target source : List (String × Value))
    (merge_nested extend_array : Bool) : Except MergeError (List (String × Value)) :=
  match source with
  | [] => .ok target
  | (key, value) :: rest =>
    match (map_remove target key).1 with
    | none => merge_objects (map_insert target key value) rest merge_nested extend_array
    | some curr =>
      match curr with
      | .obj target_obj =>
        if merge_nested = false then
          merge_objects (map_insert (map_remove target key).2 key value) rest
            merge_nested extend_array
        else
          match value with
          | .obj source_obj =>
            match merge_objects target_obj source_obj merge_nested extend_array with
            | .ok merged =>
              merge_objects
                (map_insert (map_remove target key).2 key (.obj merged)) rest
                merge_nested extend_array
            | .error e => .error e
          | _ => .error (.objectFieldTypeMismatch key value)
      | .arr target_arr =>
        if extend_array = false then
          merge_objects (map_insert (map_remove target key).2 key value) rest
            merge_nested extend_array
        else
          match value with
          | .arr source_arr =>
            merge_objects
              (map_insert (map_remove target key).2 key (.arr (target_arr ++ source_arr)))
              rest merge_nested extend_array
          | _ => .error (.arrayFieldTypeMismatch key value)
      | _ =>
        merge_objects (map_insert (map_remove target key).2 key value) rest
          merge_nested extend_array
  termination_by sizeOf source
  decreasing_by
    all_goals simp_wf
    all_goals omega

/-- Variant test: is the value an `Object`? (mirrors `matches!(v, Value::Object(_))`). -/
def is_obj : Value → Bool
  | .obj _ => true
  | _ => false

/-- Variant test: is the value an `Array`? -/
def is_arr : Value → Bool
  | .arr _ => true
  | _ => false

/-- Variant test: Null, Bool, Number or String (the `_ =>` arm of the Rust match). -/
def is_scalar : Value → Bool
  | .null => true
  | .bool _ => true
  | .num _ => true
  | .str _ => true
  | _ => false

/-- Strict sortedness of a key list (the `BTreeMap` key invariant), as an
executable check. -/
def keys_sorted : List String → Bool
  | [] => true
  | a :: rest =>
    match rest with
    | [] => true
    | b :: _ => (decide (a < b)) && keys_sorted rest

mutual

/-- Recursive well-formedness of a value as produced by `serde_json`: every
object map, at every nesting depth, has strictly sorted keys (the `BTreeMap`
invariant). -/
def value_wf : Value → Bool
  | .null => true
  | .bool _ => true
  | .num _ => true
  | .str _ => true
  | .arr xs => arr_wf xs
  | .obj m => keys_sorted (keys m) && obj_wf m

/-- All values in an array are well-formed. -/
def arr_wf : List Value → Bool
  | [] => true
  | v :: rest => value_wf v && arr_wf rest

/-- All values in an object are well-formed. -/
def obj_wf : List (String × Value) → Bool
  | [] => true
  | (_, v) :: rest => value_wf v && obj_wf rest

end

mutual

/-- The transformation the spec says `merge(D, D)` performs under
`merge_nested = true, extend_array = true`: every array appearing as a field
value at any depth reached by object recursion is concatenated with itself;
everything else is unchanged.  (Spec-side characterisation, compared against
`merge_objects` in the self-merge theorem.) -/
def dup_arrays : Value → Value
  | .arr xs => .arr (xs ++ xs)
  | .obj m => .obj (dup_entries m)
  | v => v

/-- `dup_arrays` applied to every field value of an object. -/
def dup_entries : List (String × Value) → List (String × Value)
  | [] => []
  | (k, v) :: rest => (k, dup_arrays v) :: dup_entries rest

end

/-- The `BTreeMap` representation invariant for a single (non-nested) object:
its keys are strictly sorted. -/
def map_wf (m : List (String × Value)) : Prop :=
  (keys m).Pairwise (fun a b => a < b)

/-- Split a character list at every occurrence of `c` (the semantics of
`String.splitOn` for a single-character separator, written out on `List Char`
so that it evaluates in the kernel). -/
def split_on_char (c : Char) : List Char → List (List Char)
  | [] => [[]]
  | x :: xs =>
    let r := split_on_char c xs
    if x = c then [] :: r
    else
      match r with
      | [] => [[x]]
      | y :: ys => (x :: y) :: ys

/-- Embedding of the Rust `Path::file_name` for `/`-separated path strings:
the final path component. -/
def file_name_chars (path : String) : List Char :=
  (split_on_char '/' path.data).getLastD []

/-- Embedding of the Rust `Path::extension()`: the portion of the file name
after the final `.`; `none` when there is no `.`, or when the only `.` is the
leading one of a hidden file. -/
def extension_of (path : String) : Option String :=
  match split_on_char '.' (file_name_chars path) with
  | [] => none
  | [_] => none
  | [[], _] => none
  | parts => some (String.mk (parts.getLastD []))

/-- The file-loading errors of `enum Error` that `parse_config_file` can
produce, each carrying the path. -/
inductive FileError where
  | fileOpen : String → FileError
  | readFileContents : String → FileError
  | parseToml : String → FileError
  | parseJson : String → FileError
  | unsupportedFileType : String → FileError
deriving Repr, DecidableEq

/-- Embedding of `parse_config_file` (`src/lib.rs` lines 176-206).  The file
system and the external TOML/JSON parsers are abstracted: `open_ok` is whether
`File::open` succeeds, `read_ok` whether `read_to_string` succeeds, and
`toml_parse` / `json_parse` are the external parsers (`none` = parse failure).
As in the Rust code, the file is opened first and the extension is inspected
afterwards. -/
def parse_config_file (open_ok read_ok : Bool)
    (toml_parse json_parse : String → Option (List (String × Value)))
    (path contents : String) : Except FileError (List (String × Value)) :=
  if open_ok = false then .error (.fileOpen path)
  else
    match extension_of path with
    | some ext =>
      if ext = "toml" then
        if read_ok = false then .error (.readFileContents path)
        else
          match toml_parse contents with
          | some config => .ok config
          | none => .error (.parseToml path)
      else if ext = "json" then
        match json_parse contents with
        | some config => .ok config
        | none => .error (.parseJson path)
      else .error (.unsupportedFileType path)
    | none => .error (.unsupportedFileType path)

/-- Wildcard compilation in `parse_config_paths` (`src/lib.rs` lines 68-85):
the optional pattern list defaults to empty (`unwrap_or_default`), and invalid
patterns are dropped (`flat_map` over `Wildcard::new`); validity of a pattern
in the external `wildcard` crate is abstracted as `wc_valid`. -/
def compile_wildcards (wc_valid : String → Bool)
    (match_wildcards : Option (List String)) : List String :=
  (match_wildcards.getD []).filter wc_valid

/-- Embedding of `file_names_in_dir` (`src/lib.rs` lines 109-150) over an
abstract directory listing: each entry is a file name paired with its
`is_file` flag; matching of a compiled pattern by the external `wildcard`
crate is abstracted as `wc_match pattern name`.  Non-file entries are
dropped, a file name is kept iff at least one pattern matches it
(line 145), and the kept names are sorted. -/
def file_names_in_dir (wc_match : String → String → Bool) (wildcards : List String)
    (entries : List (String × Bool)) : List String :=
  (((entries.filter (fun e => e.2)).map Prod.fst).filter
    (fun name => wildcards.any (fun wc => wc_match wc name))).mergeSort
    (fun a b => decide (a ≤ b))

/-- Per-location expansion of `parse_config_paths` (`src/lib.rs` lines
86-104): a plain file passes through as a one-element list; a directory
contributes its filtered, sorted file names. -/
inductive PathLoc where
  | file : String → PathLoc
  | dir : List (String × Bool) → PathLoc

/-- Expansion of one input location. -/
def expand_location (wc_match : String → String → Bool) (wildcards : List String) :
    PathLoc → List String
  | .file p => [p]
  | .dir entries => file_names_in_dir wc_match wildcards entries

theorem map_remove_fst (m : List (String × Value)) (k : String) :
    (map_remove m k).1 = map_get m k := by
  induction m with
  | nil => rfl
  | cons hd tl ih =>
    obtain ⟨k1, v1⟩ := hd
    by_cases h : k = k1 <;> simp [map_remove, map_get, h, ih]

theorem map_get_insert_self (m : List (String × Value)) (k : String) (v : Value) :
    map_get (map_insert m k v) k = some v := by
  induction m with
  | nil => simp [map_insert, map_get]
  | cons hd tl ih =>
    obtain ⟨k1, v1⟩ := hd
    rcases lt_trichotomy k k1 with h | h | h
    · simp [map_insert, h, map_get]
    · simp [map_insert, h, map_get]
    · have h1 : ¬ k < k1 := not_lt_of_gt h
      have h2 : k ≠ k1 := ne_of_gt h
      simp [map_insert, h1, h2, map_get, ih]

theorem map_get_insert_ne (m : List (String × Value)) (k : String) (v : Value)
    (k2 : String) (h : k2 ≠ k) :
    map_get (map_insert m k v) k2 = map_get m k2 := by
  induction m with
  | nil => simp [map_insert, map_get, h]
  | cons hd tl ih =>
    obtain ⟨k1, v1⟩ := hd
    by_cases h1 : k < k1
    · simp [map_insert, h1, map_get, h]
    · by_cases h2 : k = k1
      · subst h2
        simp [map_insert, h1, map_get, h]
      · by_cases h3 : k2 = k1 <;> simp [map_insert, h1, h2, map_get, h3, ih]

theorem map_get_remove_ne (m : List (String × Value)) (k k2 : String) (h : k2 ≠ k) :
    map_get (map_remove m k).2 k2 = map_get m k2 := by
  induction m with
  | nil => rfl
  | cons hd tl ih =>
    obtain ⟨k1, v1⟩ := hd
    by_cases h1 : k = k1
    · subst h1
      simp [map_remove, map_get, h]
    · by_cases h2 : k2 = k1 <;> simp [map_remove, map_get, h1, h2, ih]

theorem mem_keys_insert (m : List (String × Value)) (k : String) (v : Value) (a : String) :
    a ∈ keys (map_insert m k v) ↔ a = k ∨ a ∈ keys m := by
  induction m with
  | nil => simp [map_insert, keys]
  | cons hd tl ih =>
    obtain ⟨k1, v1⟩ := hd
    by_cases h1 : k < k1
    · simp [map_insert, h1, keys]
    · by_cases h2 : k = k1
      · subst h2
        by_cases h3 : a = k <;> simp [map_insert, h1, keys, h3]
      · simp [map_insert, h1, h2, keys] at ih ⊢
        rw [ih]
        tauto

theorem mem_keys_remove (m : List (String × Value)) (k a : String) :
    a ∈ keys (map_remove m k).2 → a ∈ keys m := by
  induction m with
  | nil => simp [map_remove]
  | cons hd tl ih =>
    obtain ⟨k1, v1⟩ := hd
    by_cases h1 : k = k1
    · simp [map_remove, h1, keys]
      tauto
    · simp [map_remove, h1, keys] at ih ⊢
      tauto

theorem mem_keys_remove_ne (m : List (String × Value)) (k a : String) (h : a ≠ k) :
    a ∈ keys (map_remove m k).2 ↔ a ∈ keys m := by
  induction m with
  | nil => simp [map_remove]
  | cons hd tl ih =>
    obtain ⟨k1, v1⟩ := hd
    by_cases h1 : k = k1
    · subst h1
      simp [map_remove, keys, h]
    · simp [map_remove, h1, keys] at ih ⊢
      rw [ih]

theorem map_get_eq_none_iff (m : List (String × Value)) (k : String) :
    map_get m k = none ↔ k ∉ keys m := by
  induction m with
  | nil => simp [map_get, keys]
  | cons hd tl ih =>
    obtain ⟨k1, v1⟩ := hd
    by_cases h1 : k = k1 <;> simp [map_get, h1, keys, ih]

theorem map_remove_eq_of_none (m : List (String × Value)) (k : String)
    (h : map_get m k = none) : (map_remove m k).2 = m := by
  induction m with
  | nil => rfl
  | cons hd tl ih =>
    obtain ⟨k1, v1⟩ := hd
    by_cases h1 : k = k1
    · simp [map_get, h1] at h
    · simp [map_get, h1] at h
      simp [map_remove, h1, ih h]

theorem merge_objects_nil (t : List (String × Value)) (mn ea : Bool) :
    merge_objects t [] mn ea = .ok t := by
  simp [merge_objects]

theorem merge_objects_cons_none (t : List (String × Value)) (k : String) (v : Value)
    (rest : List (String × Value)) (mn ea : Bool) (h : map_get t k = none) :
    merge_objects t ((k, v) :: rest) mn ea
      = merge_objects (map_insert t k v) rest mn ea := by
  rw [merge_objects]
  rw [map_remove_fst, h]

theorem merge_objects_cons_obj_replace (t : List (String × Value)) (k : String)
    (v : Value) (rest tobj : List (String × Value)) (ea : Bool)
    (h : map_get t k = some (.obj tobj)) :
    merge_objects t ((k, v) :: rest) false ea
      = merge_objects (map_insert (map_remove t k).2 k v) rest false ea := by
  rw [merge_objects]
  rw [map_remove_fst, h]
  rfl

theorem merge_objects_cons_obj_nested (t : List (String × Value)) (k : String)
    (rest tobj sobj : List (String × Value)) (ea : Bool)
    (h : map_get t k = some (.obj tobj)) :
    merge_objects t ((k, .obj sobj) :: rest) true ea
      = match merge_objects tobj sobj true ea with
        | .ok merged =>
          merge_objects (map_insert (map_remove t k).2 k (.obj merged)) rest true ea
        | .error e => .error e := by
  rw [merge_objects]
  rw [map_remove_fst, h]
  rfl

theorem merge_objects_cons_obj_mismatch (t : List (String × Value)) (k : String)
    (v : Value) (rest tobj : List (String × Value)) (ea : Bool)
    (h : map_get t k = some (.obj tobj)) (hv : is_obj v = false) :
    merge_objects t ((k, v) :: rest) true ea
      = .error (.objectFieldTypeMismatch k v) := by
  rw [merge_objects]
  rw [map_remove_fst, h]
  cases v <;> simp_all [is_obj]

theorem merge_objects_cons_arr_replace (t : List (String × Value)) (k : String)
    (v : Value) (rest : List (String × Value)) (txs : List Value) (mn : Bool)
    (h : map_get t k = some (.arr txs)) :
    merge_objects t ((k, v) :: rest) mn false
      = merge_objects (map_insert (map_remove t k).2 k v) rest mn false := by
  rw [merge_objects]
  rw [map_remove_fst, h]
  rfl

theorem merge_objects_cons_arr_extend (t : List (String × Value)) (k : String)
    (rest : List (String × Value)) (txs sxs : List Value) (mn : Bool)
    (h : map_get t k = some (.arr txs)) :
    merge_objects t ((k, .arr sxs) :: rest) mn true
      = merge_objects (map_insert (map_remove t k).2 k (.arr (txs ++ sxs))) rest mn true := by
  rw [merge_objects]
  rw [map_remove_fst, h]
  rfl

theorem merge_objects_cons_arr_mismatch (t : List (String × Value)) (k : String)
    (v : Value) (rest : List (String × Value)) (txs : List Value) (mn : Bool)
    (h : map_get t k = some (.arr txs)) (hv : is_arr v = false) :
    merge_objects t ((k, v) :: rest) mn true
      = .error (.arrayFieldTypeMismatch k v) := by
  rw [merge_objects]
  rw [map_remove_fst, h]
  cases v <;> simp_all [is_arr]

theorem merge_objects_cons_scalar (t : List (String × Value)) (k : String)
    (curr v : Value) (rest : List (String × Value)) (mn ea : Bool)
    (h : map_get t k = some curr) (hs : is_scalar curr = true) :
    merge_objects t ((k, v) :: rest) mn ea
      = merge_objects (map_insert (map_remove t k).2 k v) rest mn ea := by
  rw [merge_objects]
  rw [map_remove_fst, h]
  cases curr <;> simp_all [is_scalar]

theorem merge_objects_cons_ok (t : List (String × Value)) (k : String) (v : Value)
    (rest : List (String × Value)) (mn ea : Bool) (res : List (String × Value))
    (h : merge_objects t ((k, v) :: rest) mn ea = .ok res) :
    ∃ w, merge_objects (map_insert (map_remove t k).2 k w) rest mn ea = .ok res := by
  cases hg : map_get t k with
  | none =>
    rw [merge_objects_cons_none t k v rest mn ea hg] at h
    rw [map_remove_eq_of_none t k hg]
    exact ⟨v, h⟩
  | some curr =>
    cases curr with
    | obj tobj =>
      cases mn with
      | false =>
        rw [merge_objects_cons_obj_replace t k v rest tobj ea hg] at h
        exact ⟨v, h⟩
      | true =>
        cases v with
        | obj sobj =>
          rw [merge_objects_cons_obj_nested t k rest tobj sobj ea hg] at h
          cases hm : merge_objects tobj sobj true ea with
          | ok merged => rw [hm] at h; exact ⟨.obj merged, h⟩
          | error e => rw [hm] at h; simp at h
        | null => rw [merge_objects_cons_obj_mismatch t k .null rest tobj ea hg rfl] at h; simp at h
        | bool b => rw [merge_objects_cons_obj_mismatch t k (.bool b) rest tobj ea hg rfl] at h; simp at h
        | num n => rw [merge_objects_cons_obj_mismatch t k (.num n) rest tobj ea hg rfl] at h; simp at h
        | str s => rw [merge_objects_cons_obj_mismatch t k (.str s) rest tobj ea hg rfl] at h; simp at h
        | arr sxs => rw [merge_objects_cons_obj_mismatch t k (.arr sxs) rest tobj ea hg rfl] at h; simp at h
    | arr txs =>
      cases ea with
      | false =>
        rw [merge_objects_cons_arr_replace t k v rest txs mn hg] at h
        exact ⟨v, h⟩
      | true =>
        cases v with
        | arr sxs =>
          rw [merge_objects_cons_arr_extend t k rest txs sxs mn hg] at h
          exact ⟨.arr (txs ++ sxs), h⟩
        | null => rw [merge_objects_cons_arr_mismatch t k .null rest txs mn hg rfl] at h; simp at h
        | bool b => rw [merge_objects_cons_arr_mismatch t k (.bool b) rest txs mn hg rfl] at h; simp at h
        | num n => rw [merge_objects_cons_arr_mismatch t k (.num n) rest txs mn hg rfl] at h; simp at h
        | str s => rw [merge_objects_cons_arr_mismatch t k (.str s) rest txs mn hg rfl] at h; simp at h
        | obj sobj => rw [merge_objects_cons_arr_mismatch t k (.obj sobj) rest txs mn hg rfl] at h; simp at h
    | null => rw [merge_objects_cons_scalar t k _ v rest mn ea hg rfl] at h; exact ⟨v, h⟩
    | bool b => rw [merge_objects_cons_scalar t k _ v rest mn ea hg rfl] at h; exact ⟨v, h⟩
    | num n => rw [merge_objects_cons_scalar t k _ v rest mn ea hg rfl] at h; exact ⟨v, h⟩
    | str s => rw [merge_objects_cons_scalar t k _ v rest mn ea hg rfl] at h; exact ⟨v, h⟩

theorem merge_objects_frame : ∀ (source target : List (String × Value)) (mn ea : Bool)
    (res : List (String × Value)) (k : String),
    merge_objects target source mn ea = .ok res → k ∉ keys source →
    map_get res k = map_get target k := by
  intro source
  induction source with
  | nil =>
    intro t mn ea res k h _
    rw [merge_objects_nil] at h
    cases h
    rfl
  | cons hd rest ih =>
    intro t mn ea res k h hk
    obtain ⟨k1, v1⟩ := hd
    have hk1 : k ≠ k1 := by
      simp [keys] at hk
      tauto
    have hkrest : k ∉ keys rest := by
      simp [keys] at hk ⊢
      tauto
    obtain ⟨w, hw⟩ := merge_objects_cons_ok t k1 v1 rest mn ea res h
    rw [ih _ mn ea res k hw hkrest]
    rw [map_get_insert_ne _ _ _ _ hk1, map_get_remove_ne _ _ _ hk1]

theorem merge_objects_keys_mem : ∀ (source target : List (String × Value)) (mn ea : Bool)
    (res : List (String × Value)),
    merge_objects target source mn ea = .ok res →
    ∀ a, a ∈ keys res ↔ a ∈ keys target ∨ a ∈ keys source := by
  intro source
  induction source with
  | nil =>
    intro t mn ea res h a
    rw [merge_objects_nil] at h
    cases h
    simp [keys]
  | cons hd rest ih =>
    intro t mn ea res h a
    obtain ⟨k1, v1⟩ := hd
    obtain ⟨w, hw⟩ := merge_objects_cons_ok t k1 v1 rest mn ea res h
    rw [ih _ mn ea res hw a, mem_keys_insert]
    have hkc : keys ((k1, v1) :: rest) = k1 :: keys rest := rfl
    rw [hkc, List.mem_cons]
    constructor
    · rintro ((hA | hB) | hC)
      · exact Or.inr (Or.inl hA)
      · exact Or.inl (mem_keys_remove _ _ _ hB)
      · exact Or.inr (Or.inr hC)
    · rintro (hD | hA | hC)
      · by_cases hA : a = k1
        · exact Or.inl (Or.inl hA)
        · exact Or.inl (Or.inr ((mem_keys_remove_ne _ _ _ hA).2 hD))
      · exact Or.inl (Or.inl hA)
      · exact Or.inr hC

theorem keys_append (xs ys : List (String × Value)) :
    keys (xs ++ ys) = keys xs ++ keys ys := by
  simp [keys]

theorem map_insert_append (m : List (String × Value)) (k : String) (v : Value)
    (h : ∀ a ∈ keys m, a < k) : map_insert m k v = m ++ [(k, v)] := by
  induction m with
  | nil => rfl
  | cons hd tl ih =>
    obtain ⟨k1, v1⟩ := hd
    have hk1 : k1 < k := h k1 (List.mem_cons_self _ _)
    have ha : ¬ k < k1 := lt_asymm hk1
    have hb : k ≠ k1 := ne_of_gt hk1
    simp [map_insert, ha, hb]
    exact ih (fun a ha2 => h a (List.mem_cons_of_mem _ ha2))

theorem merge_objects_total : ∀ (source target : List (String × Value)),
    ∃ res, merge_objects target source false false = .ok res := by
  intro source
  induction source with
  | nil => intro t; exact ⟨t, merge_objects_nil t false false⟩
  | cons hd rest ih =>
    intro t
    obtain ⟨k1, v1⟩ := hd
    cases hg : map_get t k1 with
    | none => rw [merge_objects_cons_none t k1 v1 rest false false hg]; exact ih _
    | some curr =>
      cases curr with
      | obj tobj => rw [merge_objects_cons_obj_replace t k1 v1 rest tobj false hg]; exact ih _
      | arr txs => rw [merge_objects_cons_arr_replace t k1 v1 rest txs false hg]; exact ih _
      | null => rw [merge_objects_cons_scalar t k1 .null v1 rest false false hg rfl]; exact ih _
      | bool b => rw [merge_objects_cons_scalar t k1 (.bool b) v1 rest false false hg rfl]; exact ih _
      | num n => rw [merge_objects_cons_scalar t k1 (.num n) v1 rest false false hg rfl]; exact ih _
      | str s2 => rw [merge_objects_cons_scalar t k1 (.str s2) v1 rest false false hg rfl]; exact ih _

theorem merge_objects_sorted_append : ∀ (src pref : List (String × Value)) (mn ea : Bool),
    (keys (pref ++ src)).Pairwise (fun a b => a < b) →
    merge_objects pref src mn ea = .ok (pref ++ src) := by
  intro src
  induction src with
  | nil =>
    intro pref mn ea _
    rw [merge_objects_nil]
    simp
  | cons hd rest ih =>
    intro pref mn ea hs
    obtain ⟨k1, v1⟩ := hd
    have hs2 := hs
    rw [keys_append, List.pairwise_append] at hs2
    obtain ⟨hp, hq, hr⟩ := hs2
    have hlt : ∀ a ∈ keys pref, a < k1 := fun a ha => hr a ha k1 (List.mem_cons_self _ _)
    have hnot : map_get pref k1 = none := by
      rw [map_get_eq_none_iff]
      intro hmem
      exact lt_irrefl k1 (hlt k1 hmem)
    rw [merge_objects_cons_none pref k1 v1 rest mn ea hnot]
    rw [map_insert_append pref k1 v1 hlt]
    have hs3 : (keys ((pref ++ [(k1, v1)]) ++ rest)).Pairwise (fun a b => a < b) := by
      rw [List.append_assoc]
      exact hs
    rw [ih (pref ++ [(k1, v1)]) mn ea hs3]
    simp

/-- C1: for a key whose existing target value is an Object: with
`merge_nested = false` the source value wholesale-replaces it (any variant, no
error); with `merge_nested = true` and an Object source value the two objects
are recursively merged with the same flags (and a nested error propagates);
with `merge_nested = true` and any other source variant the merge fails with
`ObjectFieldTypeMismatch` carrying that key and the offending value. -/
theorem merge_objects_object_key_policy (target : List (String × Value)) (k : String)
    (v : Value) (tobj : List (String × Value)) (ea : Bool)
    (h : map_get target k = some (.obj tobj)) :
    (∃ res, merge_objects target [(k, v)] false ea = .ok res ∧ map_get res k = some v ∧
        ∀ k2, k2 ≠ k → map_get res k2 = map_get target k2) ∧
    (∀ sobj merged, v = .obj sobj → merge_objects tobj sobj true ea = .ok merged →
      ∃ res, merge_objects target [(k, v)] true ea = .ok res ∧
        map_get res k = some (.obj merged) ∧
        ∀ k2, k2 ≠ k → map_get res k2 = map_get target k2) ∧
    (∀ sobj e, v = .obj sobj → merge_objects tobj sobj true ea = .error e →
      merge_objects target [(k, v)] true ea = .error e) ∧
    (is_obj v = false →
      merge_objects target [(k, v)] true ea = .error (.objectFieldTypeMismatch k v)) := by
  refine ⟨?_, ?_, ?_, ?_⟩
  · rw [merge_objects_cons_obj_replace target k v [] tobj ea h, merge_objects_nil]
    exact ⟨_, rfl, map_get_insert_self _ _ _,
      fun k2 hk2 => by rw [map_get_insert_ne _ _ _ _ hk2, map_get_remove_ne _ _ _ hk2]⟩
  · intro sobj merged hv hm
    subst hv
    have heq : merge_objects target [(k, .obj sobj)] true ea
        = merge_objects (map_insert (map_remove target k).2 k (.obj merged)) [] true ea := by
      rw [merge_objects_cons_obj_nested target k [] tobj sobj ea h, hm]
    rw [heq, merge_objects_nil]
    exact ⟨_, rfl, map_get_insert_self _ _ _,
      fun k2 hk2 => by rw [map_get_insert_ne _ _ _ _ hk2, map_get_remove_ne _ _ _ hk2]⟩
  · intro sobj e hv hm
    subst hv
    rw [merge_objects_cons_obj_nested target k [] tobj sobj ea h, hm]
  · intro hv
    exact merge_objects_cons_obj_mismatch target k v [] tobj ea h hv

theorem merge_objects_object_key_policy_witness :
    map_get [("a", Value.obj [("x", Value.num 1)])] "a" = some (.obj [("x", Value.num 1)]) ∧
    ((∃ res, merge_objects [("a", Value.obj [("x", Value.num 1)])]
          [("a", Value.obj [("y", Value.num 2)])] false false = .ok res ∧
        map_get res "a" = some (Value.obj [("y", Value.num 2)]) ∧
        ∀ k2, k2 ≠ "a" →
          map_get res k2 = map_get [("a", Value.obj [("x", Value.num 1)])] k2) ∧
      (∀ sobj merged, Value.obj [("y", Value.num 2)] = .obj sobj →
        merge_objects [("x", Value.num 1)] sobj true false = .ok merged →
        ∃ res, merge_objects [("a", Value.obj [("x", Value.num 1)])]
            [("a", Value.obj [("y", Value.num 2)])] true false = .ok res ∧
          map_get res "a" = some (.obj merged) ∧
          ∀ k2, k2 ≠ "a" →
            map_get res k2 = map_get [("a", Value.obj [("x", Value.num 1)])] k2) ∧
      (∀ sobj e, Value.obj [("y", Value.num 2)] = .obj sobj →
        merge_objects [("x", Value.num 1)] sobj true false = .error e →
        merge_objects [("a", Value.obj [("x", Value.num 1)])]
          [("a", Value.obj [("y", Value.num 2)])] true false = .error e) ∧
      (is_obj (Value.obj [("y", Value.num 2)]) = false →
        merge_objects [("a", Value.obj [("x", Value.num 1)])]
            [("a", Value.obj [("y", Value.num 2)])] true false
          = .error (.objectFieldTypeMismatch "a" (Value.obj [("y", Value.num 2)])))) :=
  ⟨rfl, merge_objects_object_key_policy [("a", Value.obj [("x", Value.num 1)])] "a"
    (Value.obj [("y", Value.num 2)]) [("x", Value.num 1)] false rfl⟩

/-- C2: for a key whose existing target value is an Array: with
`extend_array = false` the source value wholesale-replaces it (no error); with
`extend_array = true` and an Array source value the result at that key is the
target array with all source elements appended in order (no dedup); with
`extend_array = true` and any other source variant the merge fails with
`ArrayFieldTypeMismatch` carrying that key and the offending value. -/
theorem merge_objects_array_key_policy (target : List (String × Value)) (k : String)
    (v : Value) (txs : List Value) (mn : Bool)
    (h : map_get target k = some (.arr txs)) :
    (∃ res, merge_objects target [(k, v)] mn false = .ok res ∧ map_get res k = some v ∧
        ∀ k2, k2 ≠ k → map_get res k2 = map_get target k2) ∧
    (∀ sxs, v = .arr sxs →
      ∃ res, merge_objects target [(k, v)] mn true = .ok res ∧
        map_get res k = some (.arr (txs ++ sxs)) ∧
        ∀ k2, k2 ≠ k → map_get res k2 = map_get target k2) ∧
    (is_arr v = false →
      merge_objects target [(k, v)] mn true = .error (.arrayFieldTypeMismatch k v)) := by
  refine ⟨?_, ?_, ?_⟩
  · rw [merge_objects_cons_arr_replace target k v [] txs mn h, merge_objects_nil]
    exact ⟨_, rfl, map_get_insert_self _ _ _,
      fun k2 hk2 => by rw [map_get_insert_ne _ _ _ _ hk2, map_get_remove_ne _ _ _ hk2]⟩
  · intro sxs hv
    subst hv
    rw [merge_objects_cons_arr_extend target k [] txs sxs mn h, merge_objects_nil]
    exact ⟨_, rfl, map_get_insert_self _ _ _,
      fun k2 hk2 => by rw [map_get_insert_ne _ _ _ _ hk2, map_get_remove_ne _ _ _ hk2]⟩
  · intro hv
    exact merge_objects_cons_arr_mismatch target k v [] txs mn h hv

theorem merge_objects_array_key_policy_witness :
    map_get [("a", Value.arr [Value.num 1, Value.num 2])] "a"
        = some (.arr [Value.num 1, Value.num 2]) ∧
    ((∃ res, merge_objects [("a", Value.arr [Value.num 1, Value.num 2])]
          [("a", Value.arr [Value.num 3])] false false = .ok res ∧
        map_get res "a" = some (Value.arr [Value.num 3]) ∧
        ∀ k2, k2 ≠ "a" →
          map_get res k2 = map_get [("a", Value.arr [Value.num 1, Value.num 2])] k2) ∧
      (∀ sxs, Value.arr [Value.num 3] = .arr sxs →
        ∃ res, merge_objects [("a", Value.arr [Value.num 1, Value.num 2])]
            [("a", Value.arr [Value.num 3])] false true = .ok res ∧
          map_get res "a" = some (.arr ([Value.num 1, Value.num 2] ++ sxs)) ∧
          ∀ k2, k2 ≠ "a" →
            map_get res k2 = map_get [("a", Value.arr [Value.num 1, Value.num 2])] k2) ∧
      (is_arr (Value.arr [Value.num 3]) = false →
        merge_objects [("a", Value.arr [Value.num 1, Value.num 2])]
            [("a", Value.arr [Value.num 3])] false true
          = .error (.arrayFieldTypeMismatch "a" (Value.arr [Value.num 3])))) :=
  ⟨rfl, merge_objects_array_key_policy [("a", Value.arr [Value.num 1, Value.num 2])] "a"
    (Value.arr [Value.num 3]) [Value.num 1, Value.num 2] false rfl⟩

/-- C3: for a key whose existing target value is Null, Bool, Number or String,
the source value unconditionally replaces it, for every source variant and
every choice of the two flags, and the merge of that key succeeds. -/
theorem merge_objects_scalar_override (target : List (String × Value)) (k : String)
    (curr v : Value) (mn ea : Bool)
    (h : map_get target k = some curr) (hs : is_scalar curr = true) :
    ∃ res, merge_objects target [(k, v)] mn ea = .ok res ∧ map_get res k = some v ∧
      ∀ k2, k2 ≠ k → map_get res k2 = map_get target k2 := by
  rw [merge_objects_cons_scalar target k curr v [] mn ea h hs, merge_objects_nil]
  exact ⟨_, rfl, map_get_insert_self _ _ _,
    fun k2 hk2 => by rw [map_get_insert_ne _ _ _ _ hk2, map_get_remove_ne _ _ _ hk2]⟩

theorem merge_objects_scalar_override_witness :
    map_get [("a", Value.num 1)] "a" = some (Value.num 1) ∧
    is_scalar (Value.num 1) = true ∧
    (∃ res, merge_objects [("a", Value.num 1)] [("a", Value.arr [Value.num 7])] true true
        = .ok res ∧
      map_get res "a" = some (Value.arr [Value.num 7]) ∧
      ∀ k2, k2 ≠ "a" → map_get res k2 = map_get [("a", Value.num 1)] k2) :=
  ⟨rfl, rfl, merge_objects_scalar_override [("a", Value.num 1)] "a" (Value.num 1)
    (Value.arr [Value.num 7]) true true rfl rfl⟩

/-- C4: the empty object is a left identity of the merge: merging a
well-formed document `D` into the empty accumulator succeeds and yields `D`
unchanged, for every choice of the two flags; and whenever the target has no
entry for a key, the source value is inserted as-is with no error. -/
theorem merge_objects_empty_left_identity (D : List (String × Value)) (mn ea : Bool)
    (h : map_wf D) :
    merge_objects [] D mn ea = .ok D ∧
    ∀ (target : List (String × Value)) (k : String) (v : Value),
      map_get target k = none →
      merge_objects target [(k, v)] mn ea = .ok (map_insert target k v) := by
  constructor
  · exact merge_objects_sorted_append D [] mn ea h
  · intro t k v hk
    rw [merge_objects_cons_none t k v [] mn ea hk, merge_objects_nil]

theorem merge_objects_empty_left_identity_witness :
    map_wf [("a", Value.num 1), ("b", Value.str "x")] ∧
    (merge_objects [] [("a", Value.num 1), ("b", Value.str "x")] true true
        = .ok [("a", Value.num 1), ("b", Value.str "x")] ∧
      ∀ (target : List (String × Value)) (k : String) (v : Value),
        map_get target k = none →
        merge_objects target [(k, v)] true true = .ok (map_insert target k v)) :=
  ⟨by simp [map_wf, keys]; decide,
    merge_objects_empty_left_identity [("a", Value.num 1), ("b", Value.str "x")] true true
      (by simp [map_wf, keys]; decide)⟩

/-- C8: whenever `merge_objects` succeeds, the key set of the result is
exactly the union of the key sets of target and source (stated for arbitrary
target and source, hence holding at every level of the recursion). -/
theorem merge_objects_keys_union (target source : List (String × Value)) (mn ea : Bool)
    (res : List (String × Value)) (h : merge_objects target source mn ea = .ok res)
    (a : String) : a ∈ keys res ↔ a ∈ keys target ∨ a ∈ keys source :=
  merge_objects_keys_mem source target mn ea res h a

theorem merge_objects_keys_union_witness :
    merge_objects [("a", Value.num 1), ("b", Value.num 2)]
        [("b", Value.num 3), ("c", Value.num 4)] true true
      = .ok [("a", Value.num 1), ("b", Value.num 3), ("c", Value.num 4)] ∧
    ("c" ∈ keys [("a", Value.num 1), ("b", Value.num 3), ("c", Value.num 4)] ↔
      "c" ∈ keys [("a", Value.num 1), ("b", Value.num 2)] ∨
      "c" ∈ keys [("b", Value.num 3), ("c", Value.num 4)]) := by
  have h : merge_objects [("a", Value.num 1), ("b", Value.num 2)]
      [("b", Value.num 3), ("c", Value.num 4)] true true
      = .ok [("a", Value.num 1), ("b", Value.num 3), ("c", Value.num 4)] := by
    simp [merge_objects, map_remove, map_insert]
    rw [if_neg (by decide), if_neg (by decide)]
  exact ⟨h, merge_objects_keys_union _ _ true true _ h "c"⟩

/-- C9: with both flags false, `merge_objects` never returns an error: it
succeeds for every pair of target and source objects. -/
theorem merge_objects_no_flags_total (target source : List (String × Value)) :
    ∃ res, merge_objects target source false false = .ok res :=
  merge_objects_total source target

/-- C10: `merge_objects` only touches keys present in the source: a key absent
from the source keeps its original target value in any successful result, and
merging an empty source returns the target unchanged. -/
theorem merge_objects_frame_unset_keys (target source : List (String × Value))
    (mn ea : Bool) (res : List (String × Value)) (k : String)
    (h : merge_objects target source mn ea = .ok res) (hk : k ∉ keys source) :
    map_get res k = map_get target k ∧ merge_objects target [] mn ea = .ok target :=
  ⟨merge_objects_frame source target mn ea res k h hk, merge_objects_nil target mn ea⟩

theorem merge_objects_frame_unset_keys_witness :
    merge_objects [("a", Value.num 1), ("b", Value.num 2)] [("b", Value.num 3)] true true
      = .ok [("a", Value.num 1), ("b", Value.num 3)] ∧
    "a" ∉ keys [("b", Value.num 3)] ∧
    (map_get [("a", Value.num 1), ("b", Value.num 3)] "a"
        = map_get [("a", Value.num 1), ("b", Value.num 2)] "a" ∧
      merge_objects [("a", Value.num 1), ("b", Value.num 2)] [] true true
        = .ok [("a", Value.num 1), ("b", Value.num 2)]) := by
  have h : merge_objects [("a", Value.num 1), ("b", Value.num 2)] [("b", Value.num 3)] true true
      = .ok [("a", Value.num 1), ("b", Value.num 3)] := by
    simp [merge_objects, map_remove, map_insert]
    decide
  have hk : "a" ∉ keys [("b", Value.num 3)] := by
    simp [keys]
  exact ⟨h, hk, merge_objects_frame_unset_keys _ _ true true _ "a" h hk⟩

theorem keys_sorted_iff (l : List String) :
    keys_sorted l = true ↔ l.Pairwise (fun a b => a < b) := by
  induction l with
  | nil => simp [keys_sorted]
  | cons a tl ih =>
    cases tl with
    | nil => simp [keys_sorted]
    | cons b tl2 =>
      rw [List.pairwise_cons]
      constructor
      · intro h
        have h2 := h
        simp only [keys_sorted, Bool.and_eq_true, decide_eq_true_eq] at h2
        obtain ⟨hab, hs⟩ := h2
        have hs2 : List.Pairwise (fun a b => a < b) (b :: tl2) := ih.mp hs
        refine ⟨?_, hs2⟩
        intro x hx
        rcases List.mem_cons.mp hx with hx | hx
        · rw [hx]; exact hab
        · exact lt_trans hab ((List.pairwise_cons.mp hs2).1 x hx)
      · rintro ⟨hall, hs⟩
        have hab : a < b := hall b (List.mem_cons_self _ _)
        have hs2 : keys_sorted (b :: tl2) = true := ih.mpr hs
        simp only [keys_sorted, Bool.and_eq_true, decide_eq_true_eq]
        exact ⟨hab, hs2⟩

theorem map_insert_middle (pref rest : List (String × Value)) (k : String) (v : Value)
    (h1 : ∀ a ∈ keys pref, a < k) (h2 : ∀ b ∈ keys rest, k < b) :
    map_insert (pref ++ rest) k v = pref ++ (k, v) :: rest := by
  induction pref with
  | nil =>
    cases rest with
    | nil => rfl
    | cons hd tl =>
      obtain ⟨k1, v1⟩ := hd
      have hk1 : k < k1 := h2 k1 (List.mem_cons_self _ _)
      simp [map_insert, hk1]
  | cons hd tl ih =>
    obtain ⟨k1, v1⟩ := hd
    have hk1 : k1 < k := h1 k1 (List.mem_cons_self _ _)
    have ha : ¬ k < k1 := lt_asymm hk1
    have hb : k ≠ k1 := ne_of_gt hk1
    simp [map_insert, ha, hb]
    exact ih (fun a ha2 => h1 a (List.mem_cons_of_mem _ ha2))

theorem map_remove_append (pref : List (String × Value)) (k : String) (v : Value)
    (rest : List (String × Value)) (h : k ∉ keys pref) :
    map_remove (pref ++ (k, v) :: rest) k = (some v, pref ++ rest) := by
  induction pref with
  | nil => simp [map_remove]
  | cons hd tl ih =>
    obtain ⟨k1, v1⟩ := hd
    have hk1 : k ≠ k1 := by
      intro he
      exact h (by rw [he]; exact List.mem_cons_self _ _)
    have h2 : k ∉ keys tl := fun hmem => h (List.mem_cons_of_mem _ hmem)
    simp [map_remove, hk1, ih h2]

theorem merge_objects_self_aux : ∀ (n : Nat) (src : List (String × Value)),
    sizeOf src ≤ n → obj_wf src = true →
    ∀ pref : List (String × Value),
    (keys (pref ++ src)).Pairwise (fun a b => a < b) →
    merge_objects (pref ++ src) src true true = .ok (pref ++ dup_entries src) := by
  intro n
  induction n with
  | zero =>
    intro src hsz
    cases src with
    | nil =>
      intro _ pref _
      rw [merge_objects_nil]
      simp [dup_entries]
    | cons hd rest =>
      simp at hsz
  | succ n ih =>
    intro src hsz hwf pref hsort
    cases src with
    | nil =>
      rw [merge_objects_nil]
      simp [dup_entries]
    | cons hd rest =>
      obtain ⟨k, v⟩ := hd
      have hs2 := hsort
      rw [keys_append, List.pairwise_append] at hs2
      obtain ⟨hp, hq, hr⟩ := hs2
      have hq2 : List.Pairwise (fun a b => a < b) (k :: keys rest) := hq
      have hkpref : k ∉ keys pref := fun hmem =>
        lt_irrefl k (hr k hmem k (List.mem_cons_self _ _))
      have hrem : map_remove (pref ++ (k, v) :: rest) k = (some v, pref ++ rest) :=
        map_remove_append pref k v rest hkpref
      have hget : map_get (pref ++ (k, v) :: rest) k = some v := by
        rw [← map_remove_fst, hrem]
      have hsnd : (map_remove (pref ++ (k, v) :: rest) k).2 = pref ++ rest := by
        rw [hrem]
      simp only [obj_wf, Bool.and_eq_true] at hwf
      obtain ⟨hvwf, hrwf⟩ := hwf
      have hmid : ∀ w : Value, map_insert (pref ++ rest) k w = pref ++ (k, w) :: rest := by
        intro w
        apply map_insert_middle
        · exact fun a ha => hr a ha k (List.mem_cons_self _ _)
        · exact fun b hb => (List.pairwise_cons.mp hq2).1 b hb
      have hsort2 : ∀ w : Value,
          (keys ((pref ++ [(k, w)]) ++ rest)).Pairwise (fun a b => a < b) := by
        intro w
        have hkeq : keys ((pref ++ [(k, w)]) ++ rest) = keys (pref ++ (k, v) :: rest) := by
          simp [keys]
        rw [hkeq]
        exact hsort
      have hszrest : sizeOf rest ≤ n := by
        simp at hsz
        omega
      have hstep : ∀ w : Value,
          merge_objects (map_insert (map_remove (pref ++ (k, v) :: rest) k).2 k w)
            rest true true
          = .ok (pref ++ (k, w) :: dup_entries rest) := by
        intro w
        rw [hsnd, hmid w]
        have hih := ih rest hszrest hrwf (pref ++ [(k, w)]) (hsort2 w)
        rw [List.append_assoc] at hih
        simp only [List.singleton_append] at hih
        rw [hih]
        rw [List.append_assoc]
        rfl
      cases v with
      | null =>
        rw [merge_objects_cons_scalar _ k .null .null rest true true hget rfl, hstep .null]
        simp [dup_entries, dup_arrays]
      | bool b =>
        rw [merge_objects_cons_scalar _ k (.bool b) (.bool b) rest true true hget rfl,
          hstep (.bool b)]
        simp [dup_entries, dup_arrays]
      | num i =>
        rw [merge_objects_cons_scalar _ k (.num i) (.num i) rest true true hget rfl,
          hstep (.num i)]
        simp [dup_entries, dup_arrays]
      | str s =>
        rw [merge_objects_cons_scalar _ k (.str s) (.str s) rest true true hget rfl,
          hstep (.str s)]
        simp [dup_entries, dup_arrays]
      | arr xs =>
        rw [merge_objects_cons_arr_extend _ k rest xs xs true hget, hstep (.arr (xs ++ xs))]
        simp [dup_entries, dup_arrays]
      | obj m =>
        simp only [value_wf, Bool.and_eq_true] at hvwf
        obtain ⟨hmsort, hmwf⟩ := hvwf
        have hszm : sizeOf m ≤ n := by
          simp at hsz
          omega
        have hnested := ih m hszm hmwf [] (by
          simp only [List.nil_append]
          exact (keys_sorted_iff (keys m)).mp hmsort)
        simp only [List.nil_append] at hnested
        have heq : merge_objects (pref ++ (k, Value.obj m) :: rest)
              ((k, Value.obj m) :: rest) true true
            = merge_objects
                (map_insert (map_remove (pref ++ (k, Value.obj m) :: rest) k).2
                  k (.obj (dup_entries m))) rest true true := by
          rw [merge_objects_cons_obj_nested _ k rest m m true hget, hnested]
        rw [heq, hstep (.obj (dup_entries m))]
        simp [dup_entries, dup_arrays]

/-- C7: merging a well-formed document with itself under
`merge_nested = true, extend_array = true` succeeds and yields the document
with every array-valued field (at any depth reached by object recursion)
replaced by its concatenation with itself. -/
theorem merge_objects_self_merge (D : List (String × Value))
    (hs : keys_sorted (keys D) = true) (hw : obj_wf D = true) :
    merge_objects D D true true = .ok (dup_entries D) := by
  have := merge_objects_self_aux (sizeOf D) D (le_refl _) hw [] (by
    simp only [List.nil_append]
    exact (keys_sorted_iff (keys D)).mp hs)
  simpa using this

theorem merge_objects_self_merge_witness :
    keys_sorted (keys [("a", Value.arr [Value.num 1, Value.num 2]),
        ("b", Value.obj [("x", Value.arr [Value.num 3])]), ("c", Value.num 5)]) = true ∧
    obj_wf [("a", Value.arr [Value.num 1, Value.num 2]),
        ("b", Value.obj [("x", Value.arr [Value.num 3])]), ("c", Value.num 5)] = true ∧
    merge_objects
        [("a", Value.arr [Value.num 1, Value.num 2]),
          ("b", Value.obj [("x", Value.arr [Value.num 3])]), ("c", Value.num 5)]
        [("a", Value.arr [Value.num 1, Value.num 2]),
          ("b", Value.obj [("x", Value.arr [Value.num 3])]), ("c", Value.num 5)]
        true true
      = .ok (dup_entries [("a", Value.arr [Value.num 1, Value.num 2]),
          ("b", Value.obj [("x", Value.arr [Value.num 3])]), ("c", Value.num 5)]) := by
  have hks : keys_sorted (keys [("a", Value.arr [Value.num 1, Value.num 2]),
      ("b", Value.obj [("x", Value.arr [Value.num 3])]), ("c", Value.num 5)]) = true := by
    simp [keys_sorted, keys]
    decide
  have hwf : obj_wf [("a", Value.arr [Value.num 1, Value.num 2]),
      ("b", Value.obj [("x", Value.arr [Value.num 3])]), ("c", Value.num 5)] = true := by
    simp [obj_wf, value_wf, arr_wf, keys_sorted, keys]
  exact ⟨hks, hwf, merge_objects_self_merge _ hks hwf⟩

/-- C5: in directory expansion a file name is included exactly when the entry
is a file and the name matches at least one supplied wildcard pattern; with
no patterns (an empty compiled list, which is what an absent or empty
`match_wildcards` option compiles to) a directory contributes nothing. -/
theorem file_names_in_dir_filter (wc_match : String → String → Bool)
    (wildcards : List String) (entries : List (String × Bool)) (name : String)
    (wc_valid : String → Bool) :
    (name ∈ file_names_in_dir wc_match wildcards entries ↔
      (name, true) ∈ entries ∧ wildcards.any (fun wc => wc_match wc name) = true) ∧
    expand_location wc_match [] (.dir entries) = [] ∧
    compile_wildcards wc_valid none = [] ∧
    compile_wildcards wc_valid (some []) = [] := by
  refine ⟨?_, ?_, rfl, rfl⟩
  · unfold file_names_in_dir
    rw [List.mem_mergeSort, List.mem_filter, List.mem_map]
    constructor
    · rintro ⟨⟨e, he, heq⟩, hm⟩
      rw [List.mem_filter] at he
      obtain ⟨hee, hb⟩ := he
      obtain ⟨n2, b⟩ := e
      simp at hb heq
      subst hb
      subst heq
      exact ⟨hee, hm⟩
    · rintro ⟨hmem, hm⟩
      exact ⟨⟨(name, true), List.mem_filter.mpr ⟨hmem, rfl⟩, rfl⟩, hm⟩
  · simp [expand_location, file_names_in_dir]

/-- C6: `parse_config_file` chooses the parser solely from the filename
extension once the file opens: extension `toml` selects the TOML parser,
extension `json` selects the JSON parser, and any other extension (including
none) fails with `UnsupportedFileType` rather than being silently skipped. -/
theorem parse_config_file_extension_dispatch (open_ok read_ok : Bool)
    (toml_parse json_parse : String → Option (List (String × Value)))
    (path contents : String) (ho : open_ok = true) :
    (extension_of path = some "toml" → read_ok = true →
      parse_config_file open_ok read_ok toml_parse json_parse path contents
        = match toml_parse contents with
          | some config => .ok config
          | none => .error (.parseToml path)) ∧
    (extension_of path = some "json" →
      parse_config_file open_ok read_ok toml_parse json_parse path contents
        = match json_parse contents with
          | some config => .ok config
          | none => .error (.parseJson path)) ∧
    (extension_of path ≠ some "toml" → extension_of path ≠ some "json" →
      parse_config_file open_ok read_ok toml_parse json_parse path contents
        = .error (.unsupportedFileType path)) := by
  subst ho
  refine ⟨?_, ?_, ?_⟩
  · intro hext hr
    subst hr
    simp [parse_config_file, hext]
  · intro hext
    simp [parse_config_file, hext]
  · intro h1 h2
    cases hext : extension_of path with
    | none => simp [parse_config_file, hext]
    | some e =>
      have e1 : e ≠ "toml" := fun he => h1 (by rw [hext, he])
      have e2 : e ≠ "json" := fun he => h2 (by rw [hext, he])
      simp [parse_config_file, hext, e1, e2]

theorem parse_config_file_extension_dispatch_witness :
    (true = true) ∧
    ((extension_of "settings.yaml" = some "toml" → true = true →
      parse_config_file true true (fun _ => some []) (fun _ => some [])
          "settings.yaml" ""
        = match (fun (_ : String) => some ([] : List (String × Value))) "" with
          | some config => .ok config
          | none => .error (.parseToml "settings.yaml")) ∧
    (extension_of "settings.yaml" = some "json" →
      parse_config_file true true (fun _ => some []) (fun _ => some [])
          "settings.yaml" ""
        = match (fun (_ : String) => some ([] : List (String × Value))) "" with
          | some config => .ok config
          | none => .error (.parseJson "settings.yaml")) ∧
    (extension_of "settings.yaml" ≠ some "toml" →
      extension_of "settings.yaml" ≠ some "json" →
      parse_config_file true true (fun _ => some []) (fun _ => some [])
          "settings.yaml" ""
        = .error (.unsupportedFileType "settings.yaml"))) :=
  ⟨rfl, parse_config_file_extension_dispatch true true (fun _ => some [])
    (fun _ => some []) "settings.yaml" "" rfl⟩

end MergeConfig
